import Mathlib

/-
Shallow embedding of the rating-submission and leaderboard core of the
rate-me application (server storage `MemStorage` and the rating/leaderboard
routes of `registerRoutes`).

Modelling conventions:
* A JS `Map<number, T>` keyed by the entity's `id` field is modelled as a
  `List T` in insertion order; `map.get(id)` is `find?` on the `id` field,
  `map.set(id, v)` replaces the (unique) entry with that id in place or
  appends, and `map.delete(id)` removes the entries with that id.  In every
  state the storage class can reach, ids in one store are distinct, so this
  agrees with `Map` semantics; theorems that depend on key uniqueness carry
  an explicit `Nodup` hypothesis.
* JS numbers used as ids/ranks are integers here (`Nat`); the computed
  `averageRating` is an exact rational (`ℚ`) standing for the JS float.
* `Date` timestamps are an abstract tick (`Nat`) threaded into operations
  that stamp `createdAt`.
* `Array.prototype.sort` with comparator `(a, b) => b.averageRating -
  a.averageRating` is a stable descending sort; it is modelled by a stable
  insertion sort on the exact averages.
* JS truthiness tests on possibly-absent values (`if (!user.studentNumber)`,
  `if (questionId)`) are modelled exactly: `undefined`, `0` and `""` are
  falsy.
-/

namespace RateMe

/-- Row of the students table (shared/schema.ts). -/
structure Student where
  id : Nat
  studentNumber : String
  name : String
  email : String
  isRegistered : Bool
  createdAt : Nat
deriving DecidableEq

/-- Row of the users (admins) table. -/
structure User where
  id : Nat
  username : String
  password : String
  isAdmin : Bool
deriving DecidableEq

/-- Row of the rooms table.  The `section` column is called `sectionLabel`
here because `section` is reserved in Lean. -/
structure Room where
  id : Nat
  roomName : String
  branch : String
  sectionLabel : String
  createdAt : Nat
deriving DecidableEq

/-- Row of the room_assignments table. -/
structure RoomAssignment where
  id : Nat
  roomId : Nat
  studentId : Nat
  assignedAt : Nat
deriving DecidableEq

/-- Row of the questions table. -/
structure Question where
  id : Nat
  roomId : Nat
  questionText : String
  createdAt : Nat
deriving DecidableEq

/-- Row of the ratings table: `studentId` is the rated student, `raterId`
the student who submitted the rank. -/
structure Rating where
  id : Nat
  roomId : Nat
  questionId : Nat
  studentId : Nat
  raterId : Nat
  rank : Nat
  createdAt : Nat
deriving DecidableEq

/-- Payload accepted by `insertRatingSchema` (id and createdAt omitted). -/
structure InsertRating where
  roomId : Nat
  questionId : Nat
  studentId : Nat
  raterId : Nat
  rank : Nat
deriving DecidableEq

/-- One element of the computed leaderboard; `rank` is the dense 1-based
position, distinct from the per-rating `rank`. -/
structure LeaderboardEntry where
  rank : Nat
  student : Student
  totalRating : Nat
  averageRating : ℚ
deriving DecidableEq

/-- The in-memory storage: each `Map<number, T>` as an insertion-ordered
list, plus the id counters. -/
structure MemStorage where
  students : List Student
  users : List User
  rooms : List Room
  roomAssignments : List RoomAssignment
  questions : List Question
  ratings : List Rating
  studentCounter : Nat
  userCounter : Nat
  roomCounter : Nat
  roomAssignmentCounter : Nat
  questionCounter : Nat
  ratingCounter : Nat
deriving DecidableEq

/-- Model of `map.get(id)` on a store keyed by `getId`. -/
def getById {α : Type} (getId : α → Nat) (l : List α) (id : Nat) : Option α :=
  l.find? (fun x => getId x == id)

/-- Model of `map.set(id, v)`: replace the entry carrying `id` in place, else append. -/
def setById {α : Type} (getId : α → Nat) (l : List α) (id : Nat) (v : α) : List α :=
  if l.any (fun x => getId x == id) then l.map (fun x => if getId x == id then v else x)
  else l ++ [v]

/-- Model of `map.delete(id)`. -/
def deleteById {α : Type} (getId : α → Nat) (l : List α) (id : Nat) : List α :=
  l.filter (fun x => !(getId x == id))

/-- JS truthiness of a possibly-absent string (`undefined` and `""` falsy). -/
def jsTruthyStr : Option String → Bool
  | none => false
  | some s => !(s == "")

/-- JS truthiness of a possibly-absent number (`undefined` and `0` falsy). -/
def jsTruthyNum : Option Nat → Bool
  | none => false
  | some n => !(n == 0)

/-- The `MemStorage` constructor: empty maps, counters at 1, and the default
admin user (id 1) pre-inserted. -/
def initMemStorage : MemStorage :=
  { students := []
    users := [⟨1, "admin", "adminpassword", true⟩]
    rooms := []
    roomAssignments := []
    questions := []
    ratings := []
    studentCounter := 1
    userCounter := 1
    roomCounter := 1
    roomAssignmentCounter := 1
    questionCounter := 1
    ratingCounter := 1 }

/-- Source `MemStorage.getRatingByStudentAndQuestion`: first ledger entry matching
the (rated student, question, rater) triple; `roomId` is not consulted. -/
def getRatingByStudentAndQuestion (s : MemStorage) (studentId questionId raterId : Nat) :
    Option Rating :=
  s.ratings.find? (fun r =>
    r.studentId == studentId && r.questionId == questionId && r.raterId == raterId)

/-- Source `MemStorage.createRating`: stamp a fresh id and the current time, store. -/
def createRating (s : MemStorage) (ins : InsertRating) (now : Nat) : Rating × MemStorage :=
  let id := s.ratingCounter
  let newRating : Rating :=
    ⟨id, ins.roomId, ins.questionId, ins.studentId, ins.raterId, ins.rank, now⟩
  (newRating,
   { s with ratings := setById Rating.id s.ratings id newRating
            ratingCounter := s.ratingCounter + 1 })

/-- The `Partial<Rating>` patch as passed to `updateRating`. -/
structure RatingPatch where
  id : Option Nat := none
  roomId : Option Nat := none
  questionId : Option Nat := none
  studentId : Option Nat := none
  raterId : Option Nat := none
  rank : Option Nat := none
  createdAt : Option Nat := none
deriving DecidableEq

/-- The spread `{ ...rating, ...data }`: fields present in the patch win. -/
def applyRatingPatch (r : Rating) (p : RatingPatch) : Rating :=
  ⟨p.id.getD r.id, p.roomId.getD r.roomId, p.questionId.getD r.questionId,
   p.studentId.getD r.studentId, p.raterId.getD r.raterId, p.rank.getD r.rank,
   p.createdAt.getD r.createdAt⟩

/-- Source `MemStorage.updateRating`: merge the patch into the stored rating. -/
def updateRating (s : MemStorage) (id : Nat) (data : RatingPatch) :
    Option Rating × MemStorage :=
  match getById Rating.id s.ratings id with
  | none => (none, s)
  | some rating =>
    let updatedRating := applyRatingPatch rating data
    (some updatedRating, { s with ratings := setById Rating.id s.ratings id updatedRating })

/-- Source `MemStorage.deleteStudent`: drop the student's room assignments, then the
student row.  Ratings are not touched. -/
def deleteStudent (s : MemStorage) (id : Nat) : Bool × MemStorage :=
  let assignments := s.roomAssignments.filter (fun a => a.studentId == id)
  let newAssignments :=
    assignments.foldl (fun l a => deleteById RoomAssignment.id l a.id) s.roomAssignments
  (s.students.any (fun st => st.id == id),
   { s with roomAssignments := newAssignments
            students := deleteById Student.id s.students id })

/-- Source `MemStorage.deleteQuestion`: drop the question's ratings, then the row. -/
def deleteQuestion (s : MemStorage) (id : Nat) : Bool × MemStorage :=
  let questionRatings := s.ratings.filter (fun r => r.questionId == id)
  let newRatings := questionRatings.foldl (fun l r => deleteById Rating.id l r.id) s.ratings
  (s.questions.any (fun q => q.id == id),
   { s with ratings := newRatings
            questions := deleteById Question.id s.questions id })

/-- Source `MemStorage.deleteRoom`: drop the room's assignments, then for each of its
questions the question's ratings and the question, then the room row. -/
def deleteRoom (s : MemStorage) (id : Nat) : Bool × MemStorage :=
  let assignments := s.roomAssignments.filter (fun a => a.roomId == id)
  let newAssignments :=
    assignments.foldl (fun l a => deleteById RoomAssignment.id l a.id) s.roomAssignments
  let roomQuestions := s.questions.filter (fun q => q.roomId == id)
  let rq : List Rating × List Question :=
    roomQuestions.foldl
      (fun acc q =>
        let questionRatings := acc.1.filter (fun r => r.questionId == q.id)
        (questionRatings.foldl (fun l r => deleteById Rating.id l r.id) acc.1,
         deleteById Question.id acc.2 q.id))
      (s.ratings, s.questions)
  (s.rooms.any (fun rm => rm.id == id),
   { s with roomAssignments := newAssignments
            ratings := rq.1
            questions := rq.2
            rooms := deleteById Room.id s.rooms id })

/-- The rating selection at the top of `getLeaderboard`.  The source guard is
`if (questionId)`, so a supplied question id of 0 is falsy and behaves like an
omitted filter. -/
def selectRatings (s : MemStorage) (roomId : Nat) (questionId : Option Nat) : List Rating :=
  if jsTruthyNum questionId then
    s.ratings.filter (fun r => r.roomId == roomId && r.questionId == questionId.getD 0)
  else
    s.ratings.filter (fun r => r.roomId == roomId)

/-- Model of `studentRatings.get(k)` on the grouping map. -/
def mapGet (m : List (Nat × List Nat)) (k : Nat) : Option (List Nat) :=
  (m.find? (fun e => e.1 == k)).map (fun e => e.2)

/-- Model of `studentRatings.set(k, v)` on the grouping map. -/
def mapSet (m : List (Nat × List Nat)) (k : Nat) (v : List Nat) : List (Nat × List Nat) :=
  if m.any (fun e => e.1 == k) then m.map (fun e => if e.1 == k then (k, v) else e)
  else m ++ [(k, v)]

/-- The grouping loop of `getLeaderboard`: push each rating's rank onto its
rated student's list, in ledger order. -/
def groupByStudent (l : List Rating) : List (Nat × List Nat) :=
  l.foldl (fun m r => mapSet m r.studentId ((mapGet m r.studentId).getD [] ++ [r.rank])) []

/-- Intermediate per-student score record of `getLeaderboard`. -/
structure StudentScore where
  studentId : Nat
  totalRating : Nat
  averageRating : ℚ
deriving DecidableEq

/-- Score computation for one group: total is the sum of the pushed ranks,
average is total over count. -/
def mkStudentScore (sid : Nat) (rks : List Nat) : StudentScore :=
  ⟨sid, rks.sum, (rks.sum : ℚ) / (rks.length : ℚ)⟩

/-- One step of the stable descending sort standing for
`sort((a, b) => b.averageRating - a.averageRating)`: a later element is
inserted behind every strictly larger average. -/
def insertScoreDesc (x : StudentScore) : List StudentScore → List StudentScore
  | [] => [x]
  | y :: ys =>
    if x.averageRating < y.averageRating then y :: insertScoreDesc x ys else x :: y :: ys

/-- Stable sort of the score list by average descending. -/
def sortScoresDesc : List StudentScore → List StudentScore
  | [] => []
  | x :: xs => insertScoreDesc x (sortScoresDesc xs)

/-- The output loop of `getLeaderboard`: walk the sorted scores with the loop
index, emit an entry with position `i + 1` only when the rated student is
still present in the students map. -/
def buildEntries (students : List Student) : Nat → List StudentScore → List LeaderboardEntry
  | _, [] => []
  | i, sc :: rest =>
    match getById Student.id students sc.studentId with
    | some st =>
      ⟨i + 1, st, sc.totalRating, sc.averageRating⟩ :: buildEntries students (i + 1) rest
    | none => buildEntries students (i + 1) rest

/-- Source `MemStorage.getLeaderboard`. -/
def getLeaderboard (s : MemStorage) (roomId : Nat) (questionId : Option Nat) :
    List LeaderboardEntry :=
  let filteredRatings := selectRatings s roomId questionId
  let studentScores := (groupByStudent filteredRatings).map (fun e => mkStudentScore e.1 e.2)
  buildEntries s.students 0 (sortScoresDesc studentScores)

/-- The authenticated `req.user` as the rating route sees it: a student
session carries the student's id and number, an admin session has no
student number. -/
structure AuthUser where
  id : Nat
  studentNumber : Option String
deriving DecidableEq

/-- Outcome of `POST /api/ratings`: 403 for non-students, 200 with the
updated row on resubmission, 201 with the new row otherwise. -/
inductive SubmitResult where
  | forbidden
  | updated (r : Option Rating)
  | created (r : Rating)
deriving DecidableEq

/-- The `POST /api/ratings` handler: reject non-students, stamp `raterId`
from the session identity, then update the existing entry for the
(rated student, question, rater) triple or create a new one. -/
def submitRating (s : MemStorage) (user : AuthUser) (body : InsertRating) (now : Nat) :
    SubmitResult × MemStorage :=
  if !(jsTruthyStr user.studentNumber) then (SubmitResult.forbidden, s)
  else
    let validatedData := { body with raterId := user.id }
    match getRatingByStudentAndQuestion s validatedData.studentId validatedData.questionId
        user.id with
    | some existingRating =>
      let us := updateRating s existingRating.id { rank := some validatedData.rank }
      (SubmitResult.updated us.1, us.2)
    | none =>
      let cs := createRating s validatedData now
      (SubmitResult.created cs.1, cs.2)

/-- One queued submission request (session user, payload, clock tick). -/
structure SubmitReq where
  user : AuthUser
  body : InsertRating
  now : Nat

/-- Run a sequence of submissions through the rating route. -/
def applySubmits (s : MemStorage) (reqs : List SubmitReq) : MemStorage :=
  reqs.foldl (fun st req => (submitRating st req.user req.body req.now).2) s

/-- Ledger membership test for one (rated student, question, rater) triple. -/
def tripleMatch (studentId questionId raterId : Nat) (r : Rating) : Bool :=
  r.studentId == studentId && r.questionId == questionId && r.raterId == raterId

/-- The uniqueness invariant: at most one ledger entry per triple. -/
def AtMostOnePerTriple (l : List Rating) : Prop :=
  ∀ sid qid rid, l.countP (tripleMatch sid qid rid) ≤ 1

/-- Spec-side grouping: the rank values a given rated student received among
a selection of ledger entries, in ledger order. -/
def ranksFor (l : List Rating) (sid : Nat) : List Nat :=
  (l.filter (fun r => r.studentId == sid)).map Rating.rank

/-- How `get` behaves after an absent key is first pushed and then extended. -/
def combineGroup : Option (List Nat) → List Nat → Option (List Nat)
  | some v, rs => some (v ++ rs)
  | none, [] => none
  | none, rs => some rs

/-- The reachability invariant of the ratings map: at most one entry per
triple, pairwise distinct ids, ids strictly below the id counter. -/
def LedgerInv (s : MemStorage) : Prop :=
  AtMostOnePerTriple s.ratings ∧ (s.ratings.map Rating.id).Nodup ∧
    ∀ r ∈ s.ratings, r.id < s.ratingCounter

/-- Concrete state: student 1 rated 1, 2, 3 by raters 2, 3, 4 on question 1
of room 1. -/
def wSumState : MemStorage :=
  { initMemStorage with
      students := [⟨1, "S1", "Alice", "s1@example.com", true, 0⟩]
      rooms := [⟨1, "Room A", "CS", "A", 0⟩]
      questions := [⟨1, 1, "Q1", 0⟩]
      ratings := [⟨1, 1, 1, 1, 2, 1, 0⟩, ⟨2, 1, 1, 1, 3, 2, 0⟩, ⟨3, 1, 1, 1, 4, 3, 0⟩]
      studentCounter := 2
      roomCounter := 2
      questionCounter := 2
      ratingCounter := 4 }

/-- Concrete state: student A (id 1) has average 3/2 from ranks 1 and 2,
student B (id 2) has average 2 from ranks 2 and 2, both on question 1 of
room 1. -/
def cxOrderState : MemStorage :=
  { initMemStorage with
      students := [⟨1, "A1", "A", "a@example.com", true, 0⟩,
                   ⟨2, "B2", "B", "b@example.com", true, 0⟩]
      rooms := [⟨1, "Room A", "CS", "A", 0⟩]
      questions := [⟨1, 1, "Q1", 0⟩]
      ratings := [⟨1, 1, 1, 1, 3, 1, 0⟩, ⟨2, 1, 1, 1, 4, 2, 0⟩,
                  ⟨3, 1, 1, 2, 3, 2, 0⟩, ⟨4, 1, 1, 2, 4, 2, 0⟩]
      studentCounter := 3
      roomCounter := 2
      questionCounter := 2
      ratingCounter := 5 }

/-- Concrete state: rated students 1, 2, 3 have averages 3, 2, 1, but only
students 1 and 3 are still present in the student store. -/
def cxGapState : MemStorage :=
  { initMemStorage with
      students := [⟨1, "S1", "A", "a@example.com", true, 0⟩,
                   ⟨3, "S3", "C", "c@example.com", true, 0⟩]
      rooms := [⟨1, "Room A", "CS", "A", 0⟩]
      questions := [⟨1, 1, "Q1", 0⟩]
      ratings := [⟨1, 1, 1, 1, 4, 3, 0⟩, ⟨2, 1, 1, 2, 4, 2, 0⟩, ⟨3, 1, 1, 3, 4, 1, 0⟩]
      studentCounter := 4
      roomCounter := 2
      questionCounter := 2
      ratingCounter := 4 }

/-- Concrete state: students 1, 2, 3 present (2 assigned to room 1) with
averages 3, 2, 1 on question 1 of room 1; student 2 is deleted in the
theorem about orphaned ratings. -/
def c9Base : MemStorage :=
  { initMemStorage with
      students := [⟨1, "S1", "A", "a@example.com", true, 0⟩,
                   ⟨2, "S2", "B", "b@example.com", true, 0⟩,
                   ⟨3, "S3", "C", "c@example.com", true, 0⟩]
      rooms := [⟨1, "Room A", "CS", "A", 0⟩]
      roomAssignments := [⟨1, 1, 2, 0⟩]
      questions := [⟨1, 1, "Q1", 0⟩]
      ratings := [⟨1, 1, 1, 1, 4, 3, 0⟩, ⟨2, 1, 1, 2, 4, 2, 0⟩, ⟨3, 1, 1, 3, 4, 1, 0⟩]
      studentCounter := 4
      roomCounter := 2
      roomAssignmentCounter := 2
      questionCounter := 2
      ratingCounter := 4 }

/-- Concrete state: one rating recorded under question 1 of room 1 for
student 2. -/
def c7State : MemStorage :=
  { initMemStorage with
      students := [⟨2, "S2", "B", "b@example.com", true, 0⟩]
      rooms := [⟨1, "Room A", "CS", "A", 0⟩]
      questions := [⟨1, 1, "Q1", 0⟩]
      ratings := [⟨1, 1, 1, 2, 3, 5, 0⟩]
      studentCounter := 3
      roomCounter := 2
      questionCounter := 2
      ratingCounter := 2 }

/-- Concrete state for cascade deletion: room 1 owns questions 1 and 2,
room 2 owns question 3; one rating per question. -/
def c8State : MemStorage :=
  { initMemStorage with
      students := [⟨1, "S1", "A", "a@example.com", true, 0⟩]
      rooms := [⟨1, "Room A", "CS", "A", 0⟩, ⟨2, "Room B", "CS", "B", 0⟩]
      questions := [⟨1, 1, "Q1", 0⟩, ⟨2, 1, "Q2", 0⟩, ⟨3, 2, "Q3", 0⟩]
      ratings := [⟨1, 1, 1, 1, 4, 1, 0⟩, ⟨2, 1, 2, 1, 4, 2, 0⟩, ⟨3, 2, 3, 1, 4, 3, 0⟩]
      studentCounter := 2
      roomCounter := 3
      questionCounter := 4
      ratingCounter := 4 }

/-- Concrete state: an existing ledger entry (id 1) for the triple of rated
student 3, question 7, rater 5, recorded in room 1 with rank 3 at tick 99. -/
def c10State : MemStorage :=
  { initMemStorage with
      ratings := [⟨1, 1, 7, 3, 5, 3, 99⟩]
      ratingCounter := 2 }

/-- The student session used in the concrete submission runs. -/
def w1User : AuthUser := ⟨5, some "S5"⟩

/-- First concrete submission payload: rank 3 for rated student 3 on
question 7 in room 1 (payload rater field deliberately junk). -/
def w1BodyA : InsertRating := ⟨1, 7, 3, 0, 3⟩

/-- Resubmission payload for the same triple with rank 1. -/
def w1BodyB : InsertRating := ⟨1, 7, 3, 0, 1⟩

/-- The state after the first concrete submission. -/
def w1Mid : MemStorage := (submitRating initMemStorage w1User w1BodyA 0).2

section StoreLemmas

variable {α : Type} {getId : α → Nat}

theorem any_id_of_mem {l : List α} {e : α} (he : e ∈ l) :
    l.any (fun x => getId x == getId e) = true := by
  exact List.any_eq_true.mpr ⟨e, he, by simp⟩

theorem find?_id_nodup {l : List α} {e : α} (he : e ∈ l)
    (hnd : (l.map getId).Nodup) :
    l.find? (fun x => getId x == getId e) = some e := by
  induction l with
  | nil => cases he
  | cons a l ih =>
    by_cases hae : getId a == getId e
    · have : a = e := by
        rcases List.mem_cons.mp he with rfl | hel
        · rfl
        · exfalso
          have : getId a ∈ l.map getId := by
            have : getId a = getId e := by simpa using hae
            exact this ▸ List.mem_map_of_mem getId hel
          exact (List.nodup_cons.mp hnd).1 this
      subst this
      simp [List.find?_cons, hae]
    · have hel : e ∈ l := by
        rcases List.mem_cons.mp he with rfl | hel
        · simp at hae
        · exact hel
      have := ih hel (List.nodup_cons.mp hnd).2
      simp [List.find?_cons, hae, this]

theorem setById_replace {l : List α} {e : α} (he : e ∈ l) (v : α) :
    setById getId l (getId e) v = l.map (fun x => if getId x == getId e then v else x) := by
  simp [setById, any_id_of_mem he]

theorem setById_append {l : List α} {id : Nat}
    (h : ∀ x ∈ l, getId x ≠ id) (v : α) :
    setById getId l id v = l ++ [v] := by
  have : l.any (fun x => getId x == id) = false := by
    simp only [List.any_eq_false]
    intro x hx
    simpa using h x hx
  simp [setById, this]

theorem foldl_deleteById : ∀ (ds l : List α),
    ds.foldl (fun acc x => deleteById getId acc (getId x)) l
      = l.filter (fun y => !(ds.any (fun x => getId y == getId x)))
  | [], l => by simp
  | d :: ds, l => by
    rw [List.foldl_cons, foldl_deleteById ds]
    simp only [deleteById, List.filter_filter]
    refine List.filter_congr (fun y _ => ?_)
    simp [Bool.and_comm]

theorem countP_map_congr {p : α → Bool} {g : α → α} {l : List α}
    (h : ∀ x ∈ l, p (g x) = p x) : (l.map g).countP p = l.countP p := by
  induction l with
  | nil => simp
  | cons a l ih =>
    have ha := h a (List.mem_cons_self a l)
    have ih' := ih (fun x hx => h x (List.mem_cons_of_mem a hx))
    simp [List.countP_cons, ha, ih']

theorem one_lt_length_of_mem_ne {l : List α} {a b : α}
    (ha : a ∈ l) (hb : b ∈ l) (hab : a ≠ b) : 1 < l.length := by
  match l with
  | [] => cases ha
  | [x] =>
    rw [List.mem_singleton] at ha hb
    exact absurd (ha.trans hb.symm) hab
  | x :: y :: t => simp [Nat.succ_lt_succ, Nat.succ_pos]

theorem countP_ge_two_of_mem_ne {l : List α} {p : α → Bool} {a b : α}
    (ha : a ∈ l) (hb : b ∈ l) (hab : a ≠ b) (hpa : p a = true) (hpb : p b = true) :
    2 ≤ l.countP p := by
  have ha' : a ∈ l.filter p := List.mem_filter.mpr ⟨ha, hpa⟩
  have hb' : b ∈ l.filter p := List.mem_filter.mpr ⟨hb, hpb⟩
  have := one_lt_length_of_mem_ne ha' hb' hab
  rw [List.countP_eq_length_filter]
  omega

end StoreLemmas

section GroupingLemmas

theorem find?_replace_self (k : Nat) (v : List Nat) :
    ∀ m : List (Nat × List Nat),
      ((m.map (fun e => if e.1 == k then (k, v) else e)).find? (fun e => e.1 == k))
        = if m.any (fun e => e.1 == k) then some (k, v) else none
  | [] => by simp
  | e :: m => by
    by_cases he : (e.1 == k) = true
    · simp only [List.map_cons, if_pos he, List.find?_cons, List.any_cons, he, Bool.true_or]
      simp
    · rw [Bool.not_eq_true] at he
      have hif : (if (e.1 == k) = true then ((k, v) : Nat × List Nat) else e) = e := by
        rw [he]
        simp
      rw [List.map_cons, hif, List.find?_cons_of_neg _ (by simp [he]), List.any_cons, he]
      simp only [Bool.false_or]
      exact find?_replace_self k v m

theorem find?_replace_ne {k k' : Nat} (hk : k' ≠ k) (v : List Nat) :
    ∀ m : List (Nat × List Nat),
      ((m.map (fun e => if e.1 == k then (k, v) else e)).find? (fun e => e.1 == k'))
        = m.find? (fun e => e.1 == k')
  | [] => by simp
  | e :: m => by
    by_cases he : (e.1 == k) = true
    · have h2 : (e.1 == k') = false := by
        have : e.1 = k := by simpa using he
        simp [this, Ne.symm hk]
      simp only [List.map_cons, if_pos he, List.find?_cons, h2]
      have h1 : (((k, v) : Nat × List Nat).1 == k') = false := by
        simp [Ne.symm hk]
      rw [h1]
      exact find?_replace_ne hk v m
    · simp only [List.map_cons, if_neg he, List.find?_cons]
      cases he' : (e.1 == k') with
      | true => rfl
      | false => exact find?_replace_ne hk v m

theorem mapGet_mapSet_self (m : List (Nat × List Nat)) (k : Nat) (v : List Nat) :
    mapGet (mapSet m k v) k = some v := by
  unfold mapSet
  by_cases h : m.any (fun e => e.1 == k)
  · rw [if_pos h]
    unfold mapGet
    rw [find?_replace_self, if_pos h]
    rfl
  · rw [if_neg h]
    unfold mapGet
    rw [List.find?_append]
    have h1 : m.find? (fun e => e.1 == k) = none := by
      rw [List.find?_eq_none]
      intro x hx
      simp only [List.any_eq_true] at h
      exact fun hc => h ⟨x, hx, hc⟩
    simp [h1]

theorem mapGet_mapSet_ne (m : List (Nat × List Nat)) {k k' : Nat} (hk : k' ≠ k)
    (v : List Nat) : mapGet (mapSet m k v) k' = mapGet m k' := by
  unfold mapSet
  by_cases h : m.any (fun e => e.1 == k)
  · rw [if_pos h]
    unfold mapGet
    rw [find?_replace_ne hk]
  · rw [if_neg h]
    unfold mapGet
    rw [List.find?_append]
    have h1 : ([(k, v)].find? (fun e => e.1 == k')) = none := by
      simp [Ne.symm hk]
    simp [h1]

theorem mapSet_keys (m : List (Nat × List Nat)) (k : Nat) (v : List Nat) :
    (mapSet m k v).map Prod.fst
      = if m.any (fun e => e.1 == k) then m.map Prod.fst else m.map Prod.fst ++ [k] := by
  unfold mapSet
  by_cases h : m.any (fun e => e.1 == k)
  · rw [if_pos h, if_pos h, List.map_map]
    refine List.map_congr_left (fun e _ => ?_)
    by_cases he : (e.1 == k) = true
    · have hek : e.1 = k := by simpa using he
      simp only [Function.comp_apply, if_pos he]
      exact hek.symm
    · simp only [Function.comp_apply, if_neg he]
  · rw [if_neg h, if_neg h]
    simp

theorem mapSet_keys_nodup {m : List (Nat × List Nat)} (k : Nat) (v : List Nat)
    (h : (m.map Prod.fst).Nodup) : ((mapSet m k v).map Prod.fst).Nodup := by
  rw [mapSet_keys]
  by_cases ha : m.any (fun e => e.1 == k)
  · rwa [if_pos ha]
  · rw [if_neg ha]
    have hk : k ∉ m.map Prod.fst := by
      intro hc
      rcases List.mem_map.mp hc with ⟨e, he, hek⟩
      simp only [List.any_eq_true] at ha
      exact ha ⟨e, he, by simp [hek]⟩
    simp [List.nodup_append, h, hk]

theorem mapGet_groupFold : ∀ (l : List Rating) (m : List (Nat × List Nat)) (sid : Nat),
    mapGet (l.foldl
        (fun m r => mapSet m r.studentId ((mapGet m r.studentId).getD [] ++ [r.rank])) m) sid
      = combineGroup (mapGet m sid) (ranksFor l sid)
  | [], m, sid => by
    cases h : mapGet m sid <;> simp [ranksFor, combineGroup, h]
  | r :: l, m, sid => by
    rw [List.foldl_cons, mapGet_groupFold l]
    by_cases hs : r.studentId = sid
    · subst hs
      rw [mapGet_mapSet_self]
      have hr : ranksFor (r :: l) r.studentId = r.rank :: ranksFor l r.studentId := by
        simp [ranksFor]
      rw [hr]
      cases h : mapGet m r.studentId with
      | none => cases hl : ranksFor l r.studentId <;> simp [combineGroup, h, hl]
      | some v => cases hl : ranksFor l r.studentId <;> simp [combineGroup, h, hl]
    · rw [mapGet_mapSet_ne _ (fun hc => hs hc.symm)]
      have hr : ranksFor (r :: l) sid = ranksFor l sid := by
        simp [ranksFor, List.filter_cons, hs]
      rw [hr]

theorem groupByStudent_get (l : List Rating) (sid : Nat) :
    mapGet (groupByStudent l) sid
      = if ranksFor l sid = [] then none else some (ranksFor l sid) := by
  unfold groupByStudent
  rw [mapGet_groupFold]
  cases h : ranksFor l sid <;> simp [combineGroup, mapGet, h]

theorem groupByStudent_keys_nodup (l : List Rating) :
    ((groupByStudent l).map Prod.fst).Nodup := by
  unfold groupByStudent
  generalize hm : ([] : List (Nat × List Nat)) = m
  have hnd : (m.map Prod.fst).Nodup := by subst hm; simp
  clear hm
  induction l generalizing m with
  | nil => exact hnd
  | cons r l ih =>
    rw [List.foldl_cons]
    exact ih _ (mapSet_keys_nodup _ _ hnd)

theorem mapGet_of_mem_nodup : ∀ {m : List (Nat × List Nat)} {k : Nat} {v : List Nat},
    (k, v) ∈ m → (m.map Prod.fst).Nodup → mapGet m k = some v := by
  intro m
  induction m with
  | nil => intro k v h; cases h
  | cons e m ih =>
    intro k v h hnd
    rcases List.mem_cons.mp h with rfl | hm
    · simp [mapGet, List.find?_cons]
    · have hek : e.1 ≠ k := by
        intro hc
        apply (List.nodup_cons.mp hnd).1
        rw [hc]
        exact List.mem_map.mpr ⟨(k, v), hm, rfl⟩
      unfold mapGet
      rw [List.find?_cons_of_neg _ (by simpa using hek)]
      exact ih hm (List.nodup_cons.mp hnd).2

theorem mem_groupByStudent {l : List Rating} {sid : Nat} {rks : List Nat}
    (h : (sid, rks) ∈ groupByStudent l) : rks = ranksFor l sid ∧ rks ≠ [] := by
  have hg := mapGet_of_mem_nodup h (groupByStudent_keys_nodup l)
  rw [groupByStudent_get] at hg
  by_cases he : ranksFor l sid = []
  · rw [if_pos he] at hg; cases hg
  · rw [if_neg he] at hg
    exact ⟨(Option.some_injective _ hg).symm ▸ rfl, by
      intro hc
      exact he ((Option.some_injective _ hg) ▸ hc ▸ rfl)⟩

end GroupingLemmas

section SortLemmas

theorem insertScoreDesc_perm (x : StudentScore) :
    ∀ l : List StudentScore, (insertScoreDesc x l).Perm (x :: l)
  | [] => List.Perm.refl _
  | y :: ys => by
    unfold insertScoreDesc
    by_cases h : x.averageRating < y.averageRating
    · rw [if_pos h]
      exact ((insertScoreDesc_perm x ys).cons y).trans (List.Perm.swap x y ys)
    · rw [if_neg h]

theorem sortScoresDesc_perm : ∀ l : List StudentScore, (sortScoresDesc l).Perm l
  | [] => List.Perm.refl _
  | x :: xs =>
    (insertScoreDesc_perm x (sortScoresDesc xs)).trans ((sortScoresDesc_perm xs).cons x)

theorem mem_insertScoreDesc {x z : StudentScore} {l : List StudentScore}
    (h : z ∈ insertScoreDesc x l) : z = x ∨ z ∈ l := by
  have := (insertScoreDesc_perm x l).mem_iff.mp h
  simpa using this

theorem pairwise_insertScoreDesc (x : StudentScore) :
    ∀ {l : List StudentScore},
      l.Pairwise (fun a b => b.averageRating ≤ a.averageRating) →
      (insertScoreDesc x l).Pairwise (fun a b => b.averageRating ≤ a.averageRating) := by
  intro l
  induction l with
  | nil => intro _; simp [insertScoreDesc]
  | cons y ys ih =>
    intro h
    rcases List.pairwise_cons.mp h with ⟨hy, hys⟩
    unfold insertScoreDesc
    by_cases hlt : x.averageRating < y.averageRating
    · rw [if_pos hlt]
      refine List.pairwise_cons.mpr ⟨?_, ih hys⟩
      intro z hz
      rcases mem_insertScoreDesc hz with rfl | hzys
      · exact le_of_lt hlt
      · exact hy z hzys
    · rw [if_neg hlt]
      refine List.pairwise_cons.mpr ⟨?_, h⟩
      intro z hz
      rcases List.mem_cons.mp hz with rfl | hzys
      · exact le_of_not_lt hlt
      · exact le_trans (hy z hzys) (le_of_not_lt hlt)

theorem sortScoresDesc_pairwise :
    ∀ l : List StudentScore,
      (sortScoresDesc l).Pairwise (fun a b => b.averageRating ≤ a.averageRating)
  | [] => List.Pairwise.nil
  | x :: xs => pairwise_insertScoreDesc x (sortScoresDesc_pairwise xs)

end SortLemmas

section BuildLemmas

theorem getById_student_id {students : List Student} {sid : Nat} {st : Student}
    (h : getById Student.id students sid = some st) : st.id = sid := by
  have := List.find?_some h
  simpa using this

theorem mem_buildEntries {students : List Student} :
    ∀ {scores : List StudentScore} {i : Nat} {e : LeaderboardEntry},
      e ∈ buildEntries students i scores →
      ∃ sc ∈ scores, getById Student.id students sc.studentId = some e.student ∧
        e.totalRating = sc.totalRating ∧ e.averageRating = sc.averageRating := by
  intro scores
  induction scores with
  | nil => intro i e h; cases h
  | cons sc rest ih =>
    intro i e h
    unfold buildEntries at h
    cases hst : getById Student.id students sc.studentId with
    | some st =>
      rw [hst] at h
      rcases List.mem_cons.mp h with rfl | hrest
      · exact ⟨sc, List.mem_cons_self sc rest, hst, rfl, rfl⟩
      · rcases ih hrest with ⟨sc', hsc', hfound, ht, ha⟩
        exact ⟨sc', List.mem_cons_of_mem sc hsc', hfound, ht, ha⟩
    | none =>
      rw [hst] at h
      rcases ih h with ⟨sc', hsc', hfound, ht, ha⟩
      exact ⟨sc', List.mem_cons_of_mem sc hsc', hfound, ht, ha⟩

theorem pairwise_buildEntries {students : List Student} :
    ∀ {scores : List StudentScore} {i : Nat},
      scores.Pairwise (fun a b => b.averageRating ≤ a.averageRating) →
      (buildEntries students i scores).Pairwise
        (fun a b => b.averageRating ≤ a.averageRating) := by
  intro scores
  induction scores with
  | nil => intro i _; exact List.Pairwise.nil
  | cons sc rest ih =>
    intro i h
    rcases List.pairwise_cons.mp h with ⟨hsc, hrest⟩
    unfold buildEntries
    cases hst : getById Student.id students sc.studentId with
    | some st =>
      refine List.pairwise_cons.mpr ⟨?_, ih hrest⟩
      intro e he
      rcases mem_buildEntries he with ⟨sc', hsc', _, _, ha⟩
      rw [ha]
      exact hsc sc' hsc'
    | none => exact ih hrest

theorem buildEntries_ranks {students : List Student} :
    ∀ {scores : List StudentScore} {i : Nat},
      (∀ sc ∈ scores, (getById Student.id students sc.studentId).isSome) →
      (buildEntries students i scores).map LeaderboardEntry.rank
        = List.range' (i + 1) scores.length := by
  intro scores
  induction scores with
  | nil => intro i _; simp [buildEntries]
  | cons sc rest ih =>
    intro i h
    unfold buildEntries
    cases hst : getById Student.id students sc.studentId with
    | some st =>
      have hih : (buildEntries students (i + 1) rest).map LeaderboardEntry.rank
          = List.range' (i + 1 + 1) rest.length :=
        ih (fun sc' hsc' => h sc' (List.mem_cons_of_mem sc hsc'))
      simp only [List.map_cons, hih, List.length_cons, List.range'_succ]
    | none =>
      exfalso
      have := h sc (List.mem_cons_self sc rest)
      rw [hst] at this
      cases this

end BuildLemmas

section SubmitLemmas

theorem tripleMatch_iff {sid qid rid : Nat} {r : Rating} :
    tripleMatch sid qid rid r = true ↔
      r.studentId = sid ∧ r.questionId = qid ∧ r.raterId = rid := by
  simp [tripleMatch, and_assoc]

/-- Resubmission path of the rating route: the stored rank is overwritten in
place and nothing else changes. -/
theorem submitRating_update {s : MemStorage} {u : AuthUser} {p : InsertRating} {now : Nat}
    {e : Rating} (htr : jsTruthyStr u.studentNumber = true)
    (hnd : (s.ratings.map Rating.id).Nodup)
    (hfind : getRatingByStudentAndQuestion s p.studentId p.questionId u.id = some e) :
    submitRating s u p now
      = (SubmitResult.updated
           (some ⟨e.id, e.roomId, e.questionId, e.studentId, e.raterId, p.rank, e.createdAt⟩),
         { s with ratings := s.ratings.map (fun r =>
             if r.id == e.id then
               ⟨e.id, e.roomId, e.questionId, e.studentId, e.raterId, p.rank, e.createdAt⟩
             else r) }) := by
  have hmem : e ∈ s.ratings := List.mem_of_find?_eq_some hfind
  have hget : getById Rating.id s.ratings e.id = some e := by
    have := find?_id_nodup hmem hnd
    simpa [getById] using this
  show (if !(jsTruthyStr u.studentNumber) then (SubmitResult.forbidden, s) else _) = _
  rw [htr]
  simp only [Bool.not_true, Bool.false_eq_true, if_false]
  show (match getRatingByStudentAndQuestion s p.studentId p.questionId u.id with
    | some existingRating =>
      let us := updateRating s existingRating.id { rank := some p.rank };
      (SubmitResult.updated us.1, us.2)
    | none =>
      let cs := createRating s { p with raterId := u.id } now;
      (SubmitResult.created cs.1, cs.2)) = _
  rw [hfind]
  show (let us := updateRating s e.id { rank := some p.rank };
        (SubmitResult.updated us.1, us.2)) = _
  unfold updateRating
  rw [hget]
  have hrepl : setById Rating.id s.ratings e.id (applyRatingPatch e { rank := some p.rank })
      = s.ratings.map (fun r => if r.id == e.id then applyRatingPatch e { rank := some p.rank }
          else r) :=
    setById_replace hmem _
  simp only [hrepl]
  rfl

/-- First-submission path of the rating route: a fresh entry carrying the
caller's id as rater is appended to the ledger. -/
theorem submitRating_create {s : MemStorage} {u : AuthUser} {p : InsertRating} {now : Nat}
    (htr : jsTruthyStr u.studentNumber = true)
    (hbound : ∀ r ∈ s.ratings, r.id < s.ratingCounter)
    (hfind : getRatingByStudentAndQuestion s p.studentId p.questionId u.id = none) :
    submitRating s u p now
      = (SubmitResult.created
           ⟨s.ratingCounter, p.roomId, p.questionId, p.studentId, u.id, p.rank, now⟩,
         { s with
             ratings := s.ratings
               ++ [⟨s.ratingCounter, p.roomId, p.questionId, p.studentId, u.id, p.rank, now⟩]
             ratingCounter := s.ratingCounter + 1 }) := by
  show (if !(jsTruthyStr u.studentNumber) then (SubmitResult.forbidden, s) else _) = _
  rw [htr]
  simp only [Bool.not_true, Bool.false_eq_true, if_false]
  show (match getRatingByStudentAndQuestion s p.studentId p.questionId u.id with
    | some existingRating =>
      let us := updateRating s existingRating.id { rank := some p.rank };
      (SubmitResult.updated us.1, us.2)
    | none =>
      let cs := createRating s { p with raterId := u.id } now;
      (SubmitResult.created cs.1, cs.2)) = _
  rw [hfind]
  show (let cs := createRating s { p with raterId := u.id } now;
        (SubmitResult.created cs.1, cs.2)) = _
  unfold createRating
  have happ : setById Rating.id s.ratings s.ratingCounter
      ⟨s.ratingCounter, p.roomId, p.questionId, p.studentId, u.id, p.rank, now⟩
      = s.ratings
        ++ [⟨s.ratingCounter, p.roomId, p.questionId, p.studentId, u.id, p.rank, now⟩] :=
    setById_append (fun x hx => Nat.ne_of_lt (hbound x hx)) _
  simp only [happ]

theorem countP_triple_of_find?_none {s : MemStorage} {sid qid rid : Nat}
    (hfind : getRatingByStudentAndQuestion s sid qid rid = none) :
    s.ratings.countP (tripleMatch sid qid rid) = 0 := by
  refine List.countP_eq_zero.mpr (fun r hr hp => ?_)
  have := List.find?_eq_none.mp hfind r hr
  exact this (by simpa [tripleMatch] using hp)

theorem countP_triple_of_find?_some {s : MemStorage} {sid qid rid : Nat} {e : Rating}
    (h1 : AtMostOnePerTriple s.ratings)
    (hfind : getRatingByStudentAndQuestion s sid qid rid = some e) :
    s.ratings.countP (tripleMatch sid qid rid) = 1 := by
  have hmem : e ∈ s.ratings := List.mem_of_find?_eq_some hfind
  have hp : tripleMatch sid qid rid e = true := by
    have := List.find?_some hfind
    simpa [tripleMatch] using this
  have hpos : 0 < s.ratings.countP (tripleMatch sid qid rid) :=
    List.countP_pos_iff.mpr ⟨e, hmem, hp⟩
  have := h1 sid qid rid
  omega

end SubmitLemmas

section InvariantLemmas

theorem ledgerInv_init : LedgerInv initMemStorage := by
  refine ⟨fun sid qid rid => ?_, ?_, ?_⟩ <;> simp [initMemStorage, AtMostOnePerTriple]

theorem submitRating_forbidden {s : MemStorage} {u : AuthUser} {p : InsertRating} {now : Nat}
    (htr : jsTruthyStr u.studentNumber = false) :
    submitRating s u p now = (SubmitResult.forbidden, s) := by
  show (if !(jsTruthyStr u.studentNumber) then (SubmitResult.forbidden, s) else _) = _
  rw [htr]
  rfl

theorem countP_update_ratings {s : MemStorage} {e : Rating} {rank : Nat}
    (hnd : (s.ratings.map Rating.id).Nodup) (hmem : e ∈ s.ratings)
    (p : Rating → Bool)
    (hp : p ⟨e.id, e.roomId, e.questionId, e.studentId, e.raterId, rank, e.createdAt⟩ = p e) :
    (s.ratings.map (fun r =>
        if r.id == e.id then ⟨e.id, e.roomId, e.questionId, e.studentId, e.raterId, rank,
          e.createdAt⟩ else r)).countP p = s.ratings.countP p := by
  refine countP_map_congr (fun x hx => ?_)
  by_cases hid : (x.id == e.id) = true
  · have hxe : x = e :=
      List.inj_on_of_nodup_map hnd hx hmem (by simpa using hid)
    rw [if_pos hid, hxe, hp]
  · rw [if_neg hid]

theorem submit_preserves_ledgerInv {s : MemStorage} (u : AuthUser) (p : InsertRating)
    (now : Nat) (hinv : LedgerInv s) : LedgerInv (submitRating s u p now).2 := by
  rcases hinv with ⟨h1, h2, h3⟩
  cases htr : jsTruthyStr u.studentNumber with
  | false => rw [submitRating_forbidden htr]; exact ⟨h1, h2, h3⟩
  | true =>
    cases hfind : getRatingByStudentAndQuestion s p.studentId p.questionId u.id with
    | some e =>
      rw [submitRating_update htr h2 hfind]
      have hmem : e ∈ s.ratings := List.mem_of_find?_eq_some hfind
      have hkeep : ∀ sid qid rid,
          tripleMatch sid qid rid
              ⟨e.id, e.roomId, e.questionId, e.studentId, e.raterId, p.rank, e.createdAt⟩
            = tripleMatch sid qid rid e := by
        intro sid qid rid
        simp [tripleMatch]
      refine ⟨fun sid qid rid => ?_, ?_, fun r hr => ?_⟩
      · rw [countP_update_ratings h2 hmem _ (hkeep sid qid rid)]
        exact h1 sid qid rid
      · have : (s.ratings.map (fun r =>
            if r.id == e.id then
              (⟨e.id, e.roomId, e.questionId, e.studentId, e.raterId, p.rank, e.createdAt⟩
                : Rating)
            else r)).map Rating.id = s.ratings.map Rating.id := by
          rw [List.map_map]
          refine List.map_congr_left (fun x _ => ?_)
          by_cases hid : (x.id == e.id) = true
          · have : x.id = e.id := by simpa using hid
            simp only [Function.comp_apply, if_pos hid]
            exact this.symm
          · simp only [Function.comp_apply, if_neg hid]
        rw [this]
        exact h2
      · rcases List.mem_map.mp hr with ⟨x, hx, hxr⟩
        by_cases hid : (x.id == e.id) = true
        · rw [if_pos hid] at hxr
          have : r.id = e.id := by rw [← hxr]
          rw [this]
          exact h3 e hmem
        · rw [if_neg hid] at hxr
          exact hxr ▸ h3 x hx
    | none =>
      rw [submitRating_create htr h3 hfind]
      set newR : Rating :=
        ⟨s.ratingCounter, p.roomId, p.questionId, p.studentId, u.id, p.rank, now⟩ with hnewR
      refine ⟨fun sid qid rid => ?_, ?_, fun r hr => ?_⟩
      · rw [List.countP_append]
        by_cases hmatch : tripleMatch sid qid rid newR = true
        · have : sid = p.studentId ∧ qid = p.questionId ∧ rid = u.id := by
            rcases tripleMatch_iff.mp hmatch with ⟨ha, hb, hc⟩
            exact ⟨ha ▸ rfl, hb ▸ rfl, hc ▸ rfl⟩
          rcases this with ⟨rfl, rfl, rfl⟩
          rw [countP_triple_of_find?_none hfind]
          simp [hmatch, List.countP_cons]
        · have : ([newR].countP (tripleMatch sid qid rid)) = 0 := by
            simp [List.countP_cons, hmatch]
          rw [this]
          simpa using h1 sid qid rid
      · rw [List.map_append]
        rw [List.nodup_append]
        refine ⟨h2, by simp, ?_⟩
        intro a ha hb
        rcases List.mem_map.mp ha with ⟨x, hx, hxa⟩
        have hlt := h3 x hx
        simp only [List.map_cons, List.map_nil, List.mem_singleton] at hb
        rw [hb] at hxa
        exact absurd hxa (Nat.ne_of_lt hlt)
      · rcases List.mem_append.mp hr with hr | hr
        · exact Nat.lt_succ_of_lt (h3 r hr)
        · simp only [List.mem_singleton] at hr
          subst hr
          exact Nat.lt_succ_self _

theorem applySubmits_ledgerInv {s : MemStorage} (reqs : List SubmitReq)
    (hinv : LedgerInv s) : LedgerInv (applySubmits s reqs) := by
  induction reqs generalizing s with
  | nil => exact hinv
  | cons req reqs ih =>
    exact ih (submit_preserves_ledgerInv req.user req.body req.now hinv)

end InvariantLemmas

section CascadeLemmas

theorem any_id_filter_eq {α : Type} {getId : α → Nat} {l : List α}
    (hnd : (l.map getId).Nodup) (P : α → Bool) {y : α} (hy : y ∈ l) :
    ((l.filter P).any (fun x => getId y == getId x)) = P y := by
  cases hP : P y with
  | true =>
    refine List.any_eq_true.mpr ⟨y, List.mem_filter.mpr ⟨hy, hP⟩, by simp⟩
  | false =>
    rw [List.any_eq_false]
    intro x hx
    rcases List.mem_filter.mp hx with ⟨hxl, hPx⟩
    intro hc
    have hxy : y = x := List.inj_on_of_nodup_map hnd hy hxl (by simpa using hc)
    rw [hxy, hPx] at hP
    cases hP

theorem deleteQuestion_ratings {s : MemStorage} {qid : Nat}
    (hnd : (s.ratings.map Rating.id).Nodup) :
    (deleteQuestion s qid).2.ratings
      = s.ratings.filter (fun r => !(r.questionId == qid)) := by
  show (s.ratings.filter (fun r => r.questionId == qid)).foldl
      (fun l r => deleteById Rating.id l r.id) s.ratings = _
  rw [foldl_deleteById]
  refine List.filter_congr (fun y hy => ?_)
  rw [any_id_filter_eq hnd _ hy]

theorem deleteQuestion_questions {s : MemStorage} {qid : Nat} :
    (deleteQuestion s qid).2.questions
      = s.questions.filter (fun q => !(q.id == qid)) := rfl

theorem roomFold_spec :
    ∀ (qs : List Question) (rs : List Rating) (qsAcc : List Question),
      (rs.map Rating.id).Nodup →
      (qs.foldl (fun acc q =>
          let questionRatings := acc.1.filter (fun r => r.questionId == q.id)
          (questionRatings.foldl (fun l r => deleteById Rating.id l r.id) acc.1,
           deleteById Question.id acc.2 q.id)) (rs, qsAcc))
        = (rs.filter (fun r => !(qs.any (fun q => r.questionId == q.id))),
           qsAcc.filter (fun x => !(qs.any (fun q => x.id == q.id))))
  | [], rs, qsAcc, _ => by simp
  | q :: qs, rs, qsAcc, hnd => by
    rw [List.foldl_cons]
    have hrs1 : (rs.filter (fun r => r.questionId == q.id)).foldl
        (fun l r => deleteById Rating.id l r.id) rs
        = rs.filter (fun r => !(r.questionId == q.id)) := by
      rw [foldl_deleteById]
      refine List.filter_congr (fun y hy => ?_)
      rw [any_id_filter_eq hnd _ hy]
    have hnd1 : ((rs.filter (fun r => !(r.questionId == q.id))).map Rating.id).Nodup :=
      ((List.filter_sublist rs).map Rating.id).nodup hnd
    show (qs.foldl _ ((rs.filter (fun r => r.questionId == q.id)).foldl
        (fun l r => deleteById Rating.id l r.id) rs, deleteById Question.id qsAcc q.id)) = _
    rw [hrs1]
    rw [roomFold_spec qs _ _ hnd1]
    refine Prod.ext ?_ ?_
    · show _ = rs.filter (fun r => !((q :: qs).any (fun q' => r.questionId == q'.id)))
      rw [List.filter_filter]
      refine List.filter_congr (fun y _ => ?_)
      simp only [List.any_cons, Bool.not_or]
      rw [Bool.and_comm]
    · show (deleteById Question.id qsAcc q.id).filter _ = _
      unfold deleteById
      rw [List.filter_filter]
      refine List.filter_congr (fun y _ => ?_)
      simp only [List.any_cons, Bool.not_or]
      rw [Bool.and_comm]

theorem deleteRoom_ratings {s : MemStorage} {rid : Nat}
    (hnd : (s.ratings.map Rating.id).Nodup) :
    (deleteRoom s rid).2.ratings
      = s.ratings.filter (fun r =>
          !((s.questions.filter (fun q => q.roomId == rid)).any
            (fun q => r.questionId == q.id))) := by
  show ((s.questions.filter (fun q => q.roomId == rid)).foldl _ (s.ratings, s.questions)).1 = _
  rw [roomFold_spec _ _ _ hnd]

theorem deleteRoom_questions {s : MemStorage} {rid : Nat}
    (hndr : (s.ratings.map Rating.id).Nodup)
    (hndq : (s.questions.map Question.id).Nodup) :
    (deleteRoom s rid).2.questions
      = s.questions.filter (fun q => !(q.roomId == rid)) := by
  show ((s.questions.filter (fun q => q.roomId == rid)).foldl _ (s.ratings, s.questions)).2 = _
  rw [roomFold_spec _ _ _ hndr]
  refine List.filter_congr (fun y hy => ?_)
  rw [any_id_filter_eq hndq _ hy]

theorem deleteStudent_parts {s : MemStorage} {sid : Nat} :
    (deleteStudent s sid).2.ratings = s.ratings ∧
    (deleteStudent s sid).2.students
      = s.students.filter (fun st => !(st.id == sid)) ∧
    ((s.roomAssignments.map RoomAssignment.id).Nodup →
      (deleteStudent s sid).2.roomAssignments
        = s.roomAssignments.filter (fun a => !(a.studentId == sid))) := by
  refine ⟨rfl, rfl, fun hnd => ?_⟩
  show (s.roomAssignments.filter (fun a => a.studentId == sid)).foldl
      (fun l a => deleteById RoomAssignment.id l a.id) s.roomAssignments = _
  rw [foldl_deleteById]
  refine List.filter_congr (fun y hy => ?_)
  rw [any_id_filter_eq hnd _ hy]

end CascadeLemmas

section LeaderboardGlue

theorem score_spec {l : List Rating} {sc : StudentScore}
    (h : sc ∈ sortScoresDesc ((groupByStudent l).map (fun e => mkStudentScore e.1 e.2))) :
    ranksFor l sc.studentId ≠ [] ∧ sc.totalRating = (ranksFor l sc.studentId).sum ∧
      sc.averageRating
        = ((ranksFor l sc.studentId).sum : ℚ) / ((ranksFor l sc.studentId).length : ℚ) := by
  have h1 : sc ∈ (groupByStudent l).map (fun e => mkStudentScore e.1 e.2) :=
    (sortScoresDesc_perm _).mem_iff.mp h
  rcases List.mem_map.mp h1 with ⟨⟨k, rks⟩, hm, hsc⟩
  rcases mem_groupByStudent hm with ⟨hrks, hne⟩
  subst hsc
  subst hrks
  exact ⟨hne, rfl, rfl⟩

theorem ranksFor_ne_exists {l : List Rating} {sid : Nat} (h : ranksFor l sid ≠ []) :
    ∃ r ∈ l, r.studentId = sid := by
  unfold ranksFor at h
  cases hf : l.filter (fun r => r.studentId == sid) with
  | nil => rw [hf] at h; simp at h
  | cons r t =>
    have hr : r ∈ l.filter (fun r => r.studentId == sid) := by rw [hf]; exact List.mem_cons_self r t
    rcases List.mem_filter.mp hr with ⟨hrl, hrs⟩
    exact ⟨r, hrl, by simpa using hrs⟩

theorem mem_leaderboard_spec {s : MemStorage} {roomId : Nat} {qId : Option Nat}
    {e : LeaderboardEntry} (he : e ∈ getLeaderboard s roomId qId) :
    getById Student.id s.students e.student.id = some e.student ∧
    ranksFor (selectRatings s roomId qId) e.student.id ≠ [] ∧
    e.totalRating = (ranksFor (selectRatings s roomId qId) e.student.id).sum ∧
    e.averageRating
      = ((ranksFor (selectRatings s roomId qId) e.student.id).sum : ℚ)
        / ((ranksFor (selectRatings s roomId qId) e.student.id).length : ℚ) := by
  rcases mem_buildEntries he with ⟨sc, hsc, hfound, ht, ha⟩
  have hid : e.student.id = sc.studentId := getById_student_id hfound
  rcases score_spec hsc with ⟨hne, htot, havg⟩
  rw [hid]
  exact ⟨hfound, hne, ht.trans htot, ha.trans havg⟩

theorem mem_selectRatings {s : MemStorage} {roomId : Nat} {q : Option Nat} {r : Rating}
    (h : r ∈ selectRatings s roomId q) : r ∈ s.ratings := by
  unfold selectRatings at h
  by_cases ht : jsTruthyNum q = true
  · rw [if_pos ht] at h
    exact (List.mem_filter.mp h).1
  · rw [if_neg ht] at h
    exact (List.mem_filter.mp h).1

end LeaderboardGlue

section UpsertGlue

theorem atMostOnePerTriple_singleton (r : Rating) : AtMostOnePerTriple [r] := by
  intro sid qid rid
  rw [List.countP_cons, List.countP_nil]
  cases tripleMatch sid qid rid r <;> simp

theorem filter_map_replace_eq_singleton :
    ∀ {l : List Rating} {e upd : Rating} {T : Rating → Bool},
      (l.map Rating.id).Nodup → e ∈ l → l.countP T = 1 → T e = true → T upd = true →
      (l.map (fun r => if r.id == e.id then upd else r)).filter T = [upd] := by
  intro l
  induction l with
  | nil => intro e upd T _ hmem; cases hmem
  | cons a t ih =>
    intro e upd T hnd hmem hcount hTe hTupd
    rcases List.nodup_cons.mp hnd with ⟨haid, hndt⟩
    by_cases hid : (a.id == e.id) = true
    · have hae : a = e := by
        rcases List.mem_cons.mp hmem with rfl | het
        · rfl
        · exfalso
          apply haid
          have : a.id = e.id := by simpa using hid
          rw [this]
          exact List.mem_map.mpr ⟨e, het, rfl⟩
      subst hae
      have hTa : T a = true := hTe
      have hct : t.countP T = 0 := by
        simp only [List.countP_cons, hTa, if_true] at hcount
        omega
      have hmap : t.map (fun r => if r.id == a.id then upd else r) = t := by
        conv_rhs => rw [← List.map_id t]
        refine List.map_congr_left (fun x hx => ?_)
        by_cases hxe : (x.id == a.id) = true
        · exfalso
          apply haid
          have hxa : x.id = a.id := by simpa using hxe
          rw [← hxa]
          exact List.mem_map.mpr ⟨x, hx, rfl⟩
        · rw [if_neg hxe]
          rfl
      rw [List.map_cons, if_pos hid, List.filter_cons, if_pos hTupd, hmap]
      have : t.filter T = [] :=
        List.filter_eq_nil_iff.mpr (fun x hx => List.countP_eq_zero.mp hct x hx)
      rw [this]
    · have het : e ∈ t := by
        rcases List.mem_cons.mp hmem with rfl | het
        · simp at hid
        · exact het
      have hTa : T a = false := by
        cases hta : T a with
        | false => rfl
        | true =>
          exfalso
          have hge := countP_ge_two_of_mem_ne (List.mem_cons_self a t)
            (List.mem_cons_of_mem a het) (fun hc => hid (by rw [hc]; simp)) hta hTe
          omega
      have hct : t.countP T = 1 := by
        rw [List.countP_cons, hTa] at hcount
        simpa using hcount
      rw [List.map_cons, if_neg hid, List.filter_cons, hTa]
      simp only [Bool.false_eq_true, if_false]
      exact ih hndt het hct hTe hTupd

end UpsertGlue


section ClaimTheorems

/-- Claim C4: the raterId stored by a rating submission always comes from the
authenticated session identity; two submissions identical except for the
payload raterId field produce identical results (same response, same stored
state), so the payload raterId has no influence. -/
theorem submit_ignores_payload_rater (s : MemStorage) (u : AuthUser) (p : InsertRating)
    (now x : Nat) :
    submitRating s u { p with raterId := x } now = submitRating s u p now := rfl

/-- Claim C6 (counterexample): for a state in which room 1 does not exist,
the leaderboard operation returns the empty sequence instead of reporting a
NotFound error. -/
theorem leaderboard_missing_room_cx :
    getById Room.id initMemStorage.rooms 1 = none ∧
    getLeaderboard initMemStorage 1 none = [] := by
  exact ⟨by decide, by decide⟩

/-- Claim C6 (amended): the leaderboard computation never consults the rooms
store — its output is invariant under arbitrary changes to the rooms map —
so a missing room produces the same (empty) sequence as an existing room
with no matching ratings, and no NotFound error is ever reported. -/
theorem leaderboard_ignores_rooms (s : MemStorage) (rooms' : List Room) (roomId : Nat)
    (qId : Option Nat) :
    getLeaderboard { s with rooms := rooms' } roomId qId = getLeaderboard s roomId qId := rfl

/-- Claim C5 (counterexample): submitting a rating whose room, question and
rated student all do not exist succeeds with a Created response and inserts
a ledger entry instead of failing with NotFound. -/
theorem submit_missing_entities_cx :
    getById Room.id initMemStorage.rooms 9 = none ∧
    getById Question.id initMemStorage.questions 7 = none ∧
    getById Student.id initMemStorage.students 3 = none ∧
    (submitRating initMemStorage ⟨5, some "S5"⟩ ⟨9, 7, 3, 0, 4⟩ 0).1
      = SubmitResult.created ⟨1, 9, 7, 3, 5, 4, 0⟩ ∧
    (submitRating initMemStorage ⟨5, some "S5"⟩ ⟨9, 7, 3, 0, 4⟩ 0).2.ratings
      = [⟨1, 9, 7, 3, 5, 4, 0⟩] := by
  refine ⟨by decide, by decide, by decide, by decide, by decide⟩

/-- Claim C5 (amended): the submit operation performs no existence check on
the referenced room, question or rated student: a submission from a
student-identified caller is never rejected and always leaves a ledger entry
for its triple carrying the submitted rank, even when none of the referenced
entities exist in the directory store. -/
theorem submit_no_existence_check (s : MemStorage) (u : AuthUser) (p : InsertRating)
    (now : Nat) (htr : jsTruthyStr u.studentNumber = true)
    (hnd : (s.ratings.map Rating.id).Nodup)
    (hbound : ∀ r ∈ s.ratings, r.id < s.ratingCounter)
    (hroom : getById Room.id s.rooms p.roomId = none)
    (hq : getById Question.id s.questions p.questionId = none)
    (hst : getById Student.id s.students p.studentId = none) :
    (submitRating s u p now).1 ≠ SubmitResult.forbidden ∧
    ∃ r ∈ (submitRating s u p now).2.ratings,
      r.studentId = p.studentId ∧ r.questionId = p.questionId ∧ r.raterId = u.id ∧
        r.rank = p.rank := by
  cases hfind : getRatingByStudentAndQuestion s p.studentId p.questionId u.id with
  | some e =>
    rw [submitRating_update htr hnd hfind]
    have hTe := List.find?_some hfind
    simp only [Bool.and_eq_true, beq_iff_eq] at hTe
    refine ⟨by simp, ⟨e.id, e.roomId, e.questionId, e.studentId, e.raterId, p.rank,
      e.createdAt⟩, ?_, hTe.1.1, hTe.1.2, hTe.2, rfl⟩
    have hmem := List.mem_of_find?_eq_some hfind
    refine List.mem_map.mpr ⟨e, hmem, ?_⟩
    rw [if_pos (by simp)]
  | none =>
    rw [submitRating_create htr hbound hfind]
    exact ⟨by simp,
      ⟨s.ratingCounter, p.roomId, p.questionId, p.studentId, u.id, p.rank, now⟩,
      List.mem_append.mpr (Or.inr (List.mem_singleton.mpr rfl)), rfl, rfl, rfl, rfl⟩

/-- Claim C5 (witness): the amended theorem applied to the empty directory
with a concrete student session and payload. -/
theorem submit_no_existence_check_witness :
    (submitRating initMemStorage ⟨6, some "S6"⟩ ⟨9, 7, 3, 0, 4⟩ 0).1
      ≠ SubmitResult.forbidden ∧
    ∃ r ∈ (submitRating initMemStorage ⟨6, some "S6"⟩ ⟨9, 7, 3, 0, 4⟩ 0).2.ratings,
      r.studentId = 3 ∧ r.questionId = 7 ∧ r.raterId = 6 ∧ r.rank = 4 :=
  submit_no_existence_check initMemStorage ⟨6, some "S6"⟩ ⟨9, 7, 3, 0, 4⟩ 0 (by decide)
    (by decide) (by simp [initMemStorage]) (by decide) (by decide) (by decide)

/-- Claim C7 (counterexample): a rating recorded under question 1 does
contribute to the leaderboard requested for question 0 (0 ≠ 1): the source
guard `if (questionId)` treats a supplied question id of 0 as absent. -/
theorem select_zero_question_cx :
    c7State.ratings = [⟨1, 1, 1, 2, 3, 5, 0⟩] ∧
    (⟨1, 1, 1, 2, 3, 5, 0⟩ : Rating).questionId = 1 ∧
    (0 : Nat) ≠ 1 ∧
    selectRatings c7State 1 (some 0) = [⟨1, 1, 1, 2, 3, 5, 0⟩] ∧
    (getLeaderboard c7State 1 (some 0)).map (fun e => (e.student.id, e.totalRating))
      = [(2, 5)] := by
  refine ⟨by decide, by decide, by decide, by decide, ?_⟩
  norm_num [getLeaderboard, selectRatings, groupByStudent, mapSet, mapGet, mkStudentScore,
    sortScoresDesc, insertScoreDesc, buildEntries, getById, jsTruthyNum, initMemStorage,
    c7State]

/-- Claim C7 (amended): the leaderboard selection keeps exactly the ledger
entries of the requested room, refined by the question filter whenever the
supplied question id is nonzero; a supplied question id of 0 is falsy and
behaves like an omitted filter, aggregating across every question of the
room. -/
theorem selectRatings_scope (s : MemStorage) (roomId q : Nat) :
    (selectRatings s roomId none = s.ratings.filter (fun r => r.roomId == roomId)) ∧
    (selectRatings s roomId (some 0) = selectRatings s roomId none) ∧
    (q ≠ 0 →
      selectRatings s roomId (some q)
        = s.ratings.filter (fun r => r.roomId == roomId && r.questionId == q) ∧
      ∀ r ∈ selectRatings s roomId (some q), r.questionId = q) := by
  refine ⟨rfl, rfl, fun hq => ?_⟩
  have htru : jsTruthyNum (some q) = true := by
    simp [jsTruthyNum, hq]
  have hsel : selectRatings s roomId (some q)
      = s.ratings.filter (fun r => r.roomId == roomId && r.questionId == q) := by
    unfold selectRatings
    rw [if_pos htru]
    rfl
  refine ⟨hsel, fun r hr => ?_⟩
  rw [hsel] at hr
  rcases List.mem_filter.mp hr with ⟨_, hb⟩
  simp only [Bool.and_eq_true] at hb
  simpa using hb.2

/-- Claim C7 (witness): the amended theorem applied to the concrete state
with one question-1 rating, requesting question 1. -/
theorem selectRatings_scope_witness :
    selectRatings c7State 1 (some 1)
      = c7State.ratings.filter (fun r => r.roomId == 1 && r.questionId == 1) ∧
    ∀ r ∈ selectRatings c7State 1 (some 1), r.questionId = 1 :=
  (selectRatings_scope c7State 1 1).2.2 (by decide)

/-- Claim C8: deleting a question removes exactly the ledger entries carrying
its question id (so later leaderboard selections never contain them), and
deleting a room cascades through its questions, removing exactly the entries
of those questions and the questions themselves. -/
theorem cascade_deletes :
    (∀ (s : MemStorage) (qid : Nat), (s.ratings.map Rating.id).Nodup →
      (deleteQuestion s qid).2.ratings
        = s.ratings.filter (fun r => !(r.questionId == qid)) ∧
      ∀ (roomId : Nat) (q' : Option Nat) (r : Rating),
        r ∈ selectRatings (deleteQuestion s qid).2 roomId q' → r.questionId ≠ qid) ∧
    (∀ (s : MemStorage) (rid : Nat), (s.ratings.map Rating.id).Nodup →
      (s.questions.map Question.id).Nodup →
      (deleteRoom s rid).2.ratings
        = s.ratings.filter (fun r =>
            !((s.questions.filter (fun q => q.roomId == rid)).any
              (fun q => r.questionId == q.id))) ∧
      (deleteRoom s rid).2.questions
        = s.questions.filter (fun q => !(q.roomId == rid))) := by
  constructor
  · intro s qid hnd
    refine ⟨deleteQuestion_ratings hnd, fun roomId q' r hr => ?_⟩
    have hmem := mem_selectRatings hr
    rw [deleteQuestion_ratings hnd] at hmem
    have := (List.mem_filter.mp hmem).2
    simpa using this
  · intro s rid hndr hndq
    exact ⟨deleteRoom_ratings hndr, deleteRoom_questions hndr hndq⟩

/-- Claim C8 (witness): cascade deletion evaluated on the concrete two-room
state: deleting question 1 keeps exactly the ratings of questions 2 and 3,
deleting room 1 keeps exactly question 3 and its rating. -/
theorem cascade_deletes_witness :
    (deleteQuestion c8State 1).2.ratings
      = [⟨2, 1, 2, 1, 4, 2, 0⟩, ⟨3, 2, 3, 1, 4, 3, 0⟩] ∧
    (deleteRoom c8State 1).2.ratings = [⟨3, 2, 3, 1, 4, 3, 0⟩] ∧
    (deleteRoom c8State 1).2.questions = [⟨3, 2, "Q3", 0⟩] := by
  have h1 := cascade_deletes.1 c8State 1 (by decide)
  have h2 := cascade_deletes.2 c8State 1 (by decide) (by decide)
  refine ⟨?_, ?_, ?_⟩
  · rw [h1.1]
    decide
  · rw [h2.1]
    decide
  · rw [h2.2]
    decide

/-- Claim C9: deleting a student drops the student row and their room
assignments but leaves the ratings ledger untouched, and the leaderboard
then skips the deleted student's score group while still numbering positions
by the pre-filter sorted index, producing non-consecutive position values
(positions 1 and 3 in the concrete run). -/
theorem delete_student_orphan_ratings :
    (∀ (s : MemStorage) (sid : Nat),
      (deleteStudent s sid).2.ratings = s.ratings ∧
      (deleteStudent s sid).2.students = s.students.filter (fun st => !(st.id == sid)) ∧
      ((s.roomAssignments.map RoomAssignment.id).Nodup →
        (deleteStudent s sid).2.roomAssignments
          = s.roomAssignments.filter (fun a => !(a.studentId == sid)))) ∧
    ((getLeaderboard (deleteStudent c9Base 2).2 1 none).map LeaderboardEntry.rank
      = [1, 3]) := by
  constructor
  · intro s sid
    exact deleteStudent_parts
  · norm_num [getLeaderboard, selectRatings, groupByStudent, mapSet, mapGet, mkStudentScore,
      sortScoresDesc, insertScoreDesc, buildEntries, getById, jsTruthyNum, deleteStudent,
      deleteById, initMemStorage, c9Base]

/-- Claim C9 (witness): the frame part applied to the concrete state, with
the assignment store evaluated. -/
theorem delete_student_orphan_ratings_witness :
    (deleteStudent c9Base 2).2.ratings = c9Base.ratings ∧
    (deleteStudent c9Base 2).2.roomAssignments = [] := by
  have h := delete_student_orphan_ratings.1 c9Base 2
  refine ⟨h.1, ?_⟩
  rw [h.2.2 (by decide)]
  decide

/-- Claim C10: when the triple of a submission already has a ledger entry,
the lookup ignores the payload roomId and the overwrite touches only the
rank: every entry keeps its id, roomId, questionId, studentId, raterId and
createdAt, the response carries the old entry with only the rank replaced,
and changing the payload roomId does not change the outcome at all. -/
theorem resubmit_preserves_identity (s : MemStorage) (u : AuthUser) (p : InsertRating)
    (now x : Nat) (e : Rating)
    (htr : jsTruthyStr u.studentNumber = true)
    (hnd : (s.ratings.map Rating.id).Nodup)
    (hfind : getRatingByStudentAndQuestion s p.studentId p.questionId u.id = some e) :
    ((submitRating s u p now).2.ratings.map (fun r =>
        (r.id, r.roomId, r.questionId, r.studentId, r.raterId, r.createdAt))
      = s.ratings.map (fun r =>
        (r.id, r.roomId, r.questionId, r.studentId, r.raterId, r.createdAt))) ∧
    (submitRating s u p now).1
      = SubmitResult.updated (some ⟨e.id, e.roomId, e.questionId, e.studentId, e.raterId,
          p.rank, e.createdAt⟩) ∧
    submitRating s u { p with roomId := x } now = submitRating s u p now := by
  have hupd := @submitRating_update s u p now e htr hnd hfind
  have hmem := List.mem_of_find?_eq_some hfind
  refine ⟨?_, ?_, ?_⟩
  · rw [hupd]
    show (s.ratings.map _).map _ = _
    rw [List.map_map]
    refine List.map_congr_left (fun r hr => ?_)
    by_cases hid : (r.id == e.id) = true
    · have hre : r = e := List.inj_on_of_nodup_map hnd hr hmem (by simpa using hid)
      subst hre
      simp only [Function.comp_apply, if_pos hid]
    · simp only [Function.comp_apply, if_neg hid]
  · rw [hupd]
  · have hfind' : getRatingByStudentAndQuestion s ({ p with roomId := x } :
        InsertRating).studentId ({ p with roomId := x } : InsertRating).questionId u.id
        = some e := hfind
    rw [submitRating_update htr hnd hfind', hupd]

/-- Claim C10 (witness): a resubmission for the stored triple that names a
different room (room 2, then room 3, versus the stored room 1) updates the
rank in place, preserving id 1, room 1 and the original timestamp 99. -/
theorem resubmit_preserves_identity_witness :
    ((submitRating c10State ⟨5, some "S5"⟩ ⟨2, 7, 3, 0, 9⟩ 7).2.ratings.map (fun r =>
        (r.id, r.roomId, r.questionId, r.studentId, r.raterId, r.createdAt))
      = c10State.ratings.map (fun r =>
        (r.id, r.roomId, r.questionId, r.studentId, r.raterId, r.createdAt))) ∧
    (submitRating c10State ⟨5, some "S5"⟩ ⟨2, 7, 3, 0, 9⟩ 7).1
      = SubmitResult.updated (some ⟨1, 1, 7, 3, 5, 9, 99⟩) ∧
    submitRating c10State ⟨5, some "S5"⟩ ⟨3, 7, 3, 0, 9⟩ 7
      = submitRating c10State ⟨5, some "S5"⟩ ⟨2, 7, 3, 0, 9⟩ 7 :=
  resubmit_preserves_identity c10State ⟨5, some "S5"⟩ ⟨2, 7, 3, 0, 9⟩ 7 3
    ⟨1, 1, 7, 3, 5, 3, 99⟩ (by decide) (by decide) (by decide)

/-- Claim C2: every leaderboard entry reports totalRating equal to the sum of
the rank values its rated student received among the selected ledger entries
and averageRating equal to that sum divided by their count, and a student
with no matching ledger entries never appears in the output. -/
theorem leaderboard_totals_correct (s : MemStorage) (roomId : Nat) (qId : Option Nat) :
    (∀ e ∈ getLeaderboard s roomId qId,
      ranksFor (selectRatings s roomId qId) e.student.id ≠ [] ∧
      e.totalRating = (ranksFor (selectRatings s roomId qId) e.student.id).sum ∧
      e.averageRating
        = ((ranksFor (selectRatings s roomId qId) e.student.id).sum : ℚ)
          / ((ranksFor (selectRatings s roomId qId) e.student.id).length : ℚ)) ∧
    (∀ sid, ranksFor (selectRatings s roomId qId) sid = [] →
      ∀ e ∈ getLeaderboard s roomId qId, e.student.id ≠ sid) := by
  constructor
  · intro e he
    rcases mem_leaderboard_spec he with ⟨_, h2, h3, h4⟩
    exact ⟨h2, h3, h4⟩
  · intro sid hsid e he hc
    rcases mem_leaderboard_spec he with ⟨_, h2, _, _⟩
    rw [hc] at h2
    exact h2 hsid

/-- Claim C2 (witness): in the concrete state where student 1 received ranks
1, 2 and 3 from three raters, the leaderboard reports totalRating 6 and
averageRating 2. -/
theorem leaderboard_totals_correct_witness :
    getLeaderboard wSumState 1 none ≠ [] ∧
    ∀ e ∈ getLeaderboard wSumState 1 none, e.totalRating = 6 ∧ e.averageRating = 2 := by
  have hmain := (leaderboard_totals_correct wSumState 1 none).1
  have hout : getLeaderboard wSumState 1 none
      = [⟨1, ⟨1, "S1", "Alice", "s1@example.com", true, 0⟩, 6, 2⟩] := by
    norm_num [getLeaderboard, selectRatings, groupByStudent, mapSet, mapGet, mkStudentScore,
      sortScoresDesc, insertScoreDesc, buildEntries, getById, jsTruthyNum, initMemStorage,
      wSumState]
  have hranks : ranksFor (selectRatings wSumState 1 none) 1 = [1, 2, 3] := by decide
  refine ⟨by rw [hout]; simp, fun e he => ?_⟩
  rcases hmain e he with ⟨_, h3, h4⟩
  have hid : e.student.id = 1 := by
    rw [hout] at he
    rcases List.mem_singleton.mp he with rfl
    rfl
  rw [hid, hranks] at h3 h4
  rw [h3, h4]
  norm_num

/-- Claim C3 (counterexample): with A (id 1, average 3/2) and B (id 2,
average 2), the leaderboard lists B first (positions 1 and 2 for B and A),
not A first as the claim's example says; and in a state whose middle-ranked
student was deleted the position sequence is [1, 3], not dense. -/
theorem leaderboard_order_cx :
    ((getLeaderboard cxOrderState 1 none).map (fun e => (e.rank, e.student.id,
        e.averageRating)) = [(1, 2, 2), (2, 1, 3 / 2)]) ∧
    ¬((getLeaderboard cxOrderState 1 none).head?.map (fun e => e.student.id) = some 1) ∧
    ((getLeaderboard cxGapState 1 none).map LeaderboardEntry.rank = [1, 3]) ∧
    ¬((getLeaderboard cxGapState 1 none).map LeaderboardEntry.rank
        = List.range' 1 (getLeaderboard cxGapState 1 none).length) := by
  have h1 : getLeaderboard cxOrderState 1 none
      = [⟨1, ⟨2, "B2", "B", "b@example.com", true, 0⟩, 4, 2⟩,
         ⟨2, ⟨1, "A1", "A", "a@example.com", true, 0⟩, 3, 3 / 2⟩] := by
    norm_num [getLeaderboard, selectRatings, groupByStudent, mapSet, mapGet, mkStudentScore,
      sortScoresDesc, insertScoreDesc, buildEntries, getById, jsTruthyNum, initMemStorage,
      cxOrderState]
  have h2 : getLeaderboard cxGapState 1 none
      = [⟨1, ⟨1, "S1", "A", "a@example.com", true, 0⟩, 3, 3⟩,
         ⟨3, ⟨3, "S3", "C", "c@example.com", true, 0⟩, 1, 1⟩] := by
    norm_num [getLeaderboard, selectRatings, groupByStudent, mapSet, mapGet, mkStudentScore,
      sortScoresDesc, insertScoreDesc, buildEntries, getById, jsTruthyNum, initMemStorage,
      cxGapState]
  rw [h1, h2]
  refine ⟨by norm_num, by simp, by simp, by simp [List.range']⟩

/-- Claim C3 (amended): the leaderboard is sorted by averageRating in
descending order, and whenever every rated student in scope is still present
in the student store the position fields are exactly the dense sequence
1, 2, ..., n; in the A/B example B (average 2) precedes A (average 3/2) with
positions 1 and 2. -/
theorem leaderboard_sorted_dense (s : MemStorage) (roomId : Nat) (qId : Option Nat) :
    (getLeaderboard s roomId qId).Pairwise
      (fun a b => b.averageRating ≤ a.averageRating) ∧
    ((∀ r ∈ selectRatings s roomId qId,
        (getById Student.id s.students r.studentId).isSome) →
      (getLeaderboard s roomId qId).map LeaderboardEntry.rank
        = List.range' 1 (getLeaderboard s roomId qId).length) := by
  constructor
  · exact pairwise_buildEntries (sortScoresDesc_pairwise _)
  · intro hall
    have hscores : ∀ sc ∈ sortScoresDesc ((groupByStudent (selectRatings s roomId qId)).map
        (fun e => mkStudentScore e.1 e.2)),
        (getById Student.id s.students sc.studentId).isSome := by
      intro sc hsc
      rcases score_spec hsc with ⟨hne, _, _⟩
      rcases ranksFor_ne_exists hne with ⟨r, hrl, hrs⟩
      rw [← hrs]
      exact hall r hrl
    have hr := @buildEntries_ranks s.students _ 0 hscores
    have hlen : (getLeaderboard s roomId qId).length
        = (sortScoresDesc ((groupByStudent (selectRatings s roomId qId)).map
            (fun e => mkStudentScore e.1 e.2))).length := by
      have hlm := congrArg List.length hr
      simpa [getLeaderboard] using hlm
    show (getLeaderboard s roomId qId).map LeaderboardEntry.rank = _
    rw [hlen]
    exact hr

/-- Claim C3 (witness): the amended theorem applied to the A/B state, in
which every rated student exists: output sorted descending with dense
positions. -/
theorem leaderboard_sorted_dense_witness :
    (getLeaderboard cxOrderState 1 none).Pairwise
      (fun a b => b.averageRating ≤ a.averageRating) ∧
    (getLeaderboard cxOrderState 1 none).map LeaderboardEntry.rank
      = List.range' 1 (getLeaderboard cxOrderState 1 none).length :=
  ⟨(leaderboard_sorted_dense cxOrderState 1 none).1,
   (leaderboard_sorted_dense cxOrderState 1 none).2 (by decide)⟩

/-- Claim C1: starting from the initial store, any sequence of submissions
leaves at most one ledger entry per (rated student, question, rater) triple;
and on any well-formed ledger a student submission leaves exactly one entry
for its triple whose rank is the value just submitted (an existing entry is
overwritten in place, not duplicated). -/
theorem submit_upsert_unique :
    (∀ reqs : List SubmitReq, AtMostOnePerTriple (applySubmits initMemStorage reqs).ratings) ∧
    (∀ (s : MemStorage) (u : AuthUser) (p : InsertRating) (now : Nat),
      jsTruthyStr u.studentNumber = true →
      (s.ratings.map Rating.id).Nodup →
      (∀ r ∈ s.ratings, r.id < s.ratingCounter) →
      AtMostOnePerTriple s.ratings →
      AtMostOnePerTriple ((submitRating s u p now).2).ratings ∧
      (((submitRating s u p now).2).ratings.filter
          (tripleMatch p.studentId p.questionId u.id)).map Rating.rank = [p.rank]) := by
  constructor
  · intro reqs
    exact (applySubmits_ledgerInv reqs ledgerInv_init).1
  · intro s u p now htr hnd hbound hone
    have hpres := submit_preserves_ledgerInv u p now ⟨hone, hnd, hbound⟩
    refine ⟨hpres.1, ?_⟩
    cases hfind : getRatingByStudentAndQuestion s p.studentId p.questionId u.id with
    | some e =>
      rw [@submitRating_update s u p now e htr hnd hfind]
      have hTe : tripleMatch p.studentId p.questionId u.id e = true := by
        have := List.find?_some hfind
        simpa [tripleMatch] using this
      have hTupd : tripleMatch p.studentId p.questionId u.id
          ⟨e.id, e.roomId, e.questionId, e.studentId, e.raterId, p.rank, e.createdAt⟩
          = true := by
        rcases tripleMatch_iff.mp hTe with ⟨h1, h2, h3⟩
        exact tripleMatch_iff.mpr ⟨h1, h2, h3⟩
      have hcount := countP_triple_of_find?_some hone hfind
      have hfil := filter_map_replace_eq_singleton hnd (List.mem_of_find?_eq_some hfind)
        hcount hTe hTupd
      rw [hfil]
      rfl
    | none =>
      rw [@submitRating_create s u p now htr hbound hfind]
      have hTnew : tripleMatch p.studentId p.questionId u.id
          ⟨s.ratingCounter, p.roomId, p.questionId, p.studentId, u.id, p.rank, now⟩
          = true := by
        simp [tripleMatch]
      have h0 := countP_triple_of_find?_none hfind
      have hnil : s.ratings.filter (tripleMatch p.studentId p.questionId u.id) = [] :=
        List.filter_eq_nil_iff.mpr (fun x hx => List.countP_eq_zero.mp h0 x hx)
      rw [List.filter_append, hnil, List.nil_append, List.filter_cons, if_pos hTnew]
      rfl

/-- Claim C1 (witness): submitting rank 3 and then rank 1 for the triple of
rated student 3, question 7, rater 5 leaves exactly one ledger entry for the
triple, with rank 1. -/
theorem submit_upsert_unique_witness :
    AtMostOnePerTriple ((submitRating w1Mid w1User w1BodyB 1).2).ratings ∧
    (((submitRating w1Mid w1User w1BodyB 1).2).ratings.filter
        (tripleMatch 3 7 5)).map Rating.rank = [1] :=
  submit_upsert_unique.2 w1Mid w1User w1BodyB 1 (by decide) (by decide) (by decide)
    (atMostOnePerTriple_singleton ⟨1, 1, 7, 3, 5, 3, 0⟩)

end ClaimTheorems

end RateMe
